import Mathlib

/-!
Shallow embedding of `src/tools/patterns.py` (the "boundless.worlds" pattern
generator) and proofs about it.

Modelling conventions:
* Scalars are elements of an arbitrary `LinearOrderedField` (with `FloorRing`
  where integer truncation is needed); claims that only need exact arithmetic
  are instantiated at `ℚ` (executable), claims about the genuine trigonometric
  geometry are instantiated at `ℝ` with `Real.cos` / `Real.sin` / `2 * π`.
* Python generators (`yield` loops) are embedded with an explicit `fuel`
  bound; every loop returns, besides its yields, a `Bool` that is `true`
  exactly when the loop's guard became false before the fuel ran out, i.e.
  when the Python loop actually terminates.  A loop that is incomplete at
  every fuel is a Python infinite loop.
* The global Mersenne-Twister RNG of the `random` module is modelled as a
  stream of values together with a cursor; `random.random()` consumes one
  value.  `random.uniform(a, b)` is `a + (b - a) * random()` (CPython's
  definition) and `random.choice(seq)` consumes one draw `u` and selects
  index `⌊u * len(seq)⌋`, which is uniform over indices for `u ∈ [0, 1)`.
* Calls into the cairo drawing surface are recorded as a command stream
  (`Cmd`), the "drawing-command stream" of the spec.
-/

namespace Patterns

/-- A drawing command recorded against the cairo context.  Each constructor
mirrors one cairo call made by `patterns.py`; `set_source_radial` stands for
installing the (always identical) centred white-to-black radial gradient
built by `cairo.RadialGradient(0,0,0,0,0,1)` with stops `(0,1,1,1)` and
`(1,0,0,0)`. -/
inductive Cmd (α : Type) where
  | move_to (x y : α)
  | line_to (x y : α)
  | arc (xc yc radius angle1 angle2 : α)
  | new_sub_path
  | rectangle (x y w h : α)
  | set_source_rgb (r g b : α)
  | set_source_radial
  | set_line_width (w : α)
  | set_line_cap (cap : ℕ)
  | set_line_join (join : ℕ)
  | stroke
  | fill
  | translate (x y : α)
  | scale (x y : α)
  deriving DecidableEq

/-- cairo's `LINE_CAP_ROUND` constant. -/
def LINE_CAP_ROUND : ℕ := 1

/-- cairo's `LINE_CAP_SQUARE` constant. -/
def LINE_CAP_SQUARE : ℕ := 2

/-- cairo's `LINE_JOIN_BEVEL` constant. -/
def LINE_JOIN_BEVEL : ℕ := 2

/-- Recogniser for `line_to` commands. -/
def Cmd.isLineTo {α : Type} : Cmd α → Bool
  | .line_to _ _ => true
  | _ => false

/-- The state of the `random` module's global RNG: a stream of raw draws
(each modelling one `random.random()` result, real code: in `[0, 1)`) and a
cursor into it. -/
structure RNG (α : Type) where
  stream : ℕ → α
  idx : ℕ

/-- The stream of an RNG produces draws in `[0, 1)`, as `random.random()`
guarantees. -/
def InRange {α : Type} [LinearOrderedField α] (s : ℕ → α) : Prop :=
  ∀ n, 0 ≤ s n ∧ s n < 1

/-- `random.random()`: consume one draw. -/
def random_random {α : Type} (g : RNG α) : α × RNG α :=
  (g.stream g.idx, ⟨g.stream, g.idx + 1⟩)

/-- `random.uniform(a, b)`: CPython computes `a + (b - a) * random()`. -/
def random_uniform {α : Type} [LinearOrderedField α] (a b : α) (g : RNG α) :
    α × RNG α :=
  let p := random_random g
  (a + (b - a) * p.1, p.2)

/-- `random.choice(seq)` for a sequence of ints: consumes one draw `u` and
returns the element at index `⌊u * len(seq)⌋` (uniform over the indices when
`u ∈ [0, 1)`, matching CPython's uniform selection). -/
def random_choice {α : Type} [LinearOrderedField α] [FloorRing α]
    (l : List ℕ) (g : RNG α) : ℕ × RNG α :=
  let p := random_random g
  (l.getD (Int.toNat ⌊p.1 * (l.length : α)⌋) 0, p.2)

/-- `polar_to_xy(radius, angle)` from `patterns.py`, with the trigonometric
functions passed explicitly. -/
def polar_to_xy {α : Type} [LinearOrderedField α] (mcos msin : α → α)
    (radius angle : α) : α × α :=
  (radius * mcos angle, radius * msin angle)

/-- The ascending `while` loop of `frange` (`while start < end: yield start;
start += step`), run with `fuel` iterations of budget.  Returns the yielded
values and `true` iff the guard became false within the budget (i.e. the
Python loop terminates after at most `fuel` iterations). -/
def frangeUp {α : Type} [LinearOrderedField α] :
    ℕ → α → α → α → List α × Bool
  | 0, start, e, _ => ([], decide (e ≤ start))
  | n + 1, start, e, step =>
    if start < e then
      let p := frangeUp n (start + step) e step
      (start :: p.1, p.2)
    else ([], true)

/-- The descending `while` loop of `frange` (`while start > end`), with fuel,
mirroring `frangeUp`. -/
def frangeDown {α : Type} [LinearOrderedField α] :
    ℕ → α → α → α → List α × Bool
  | 0, start, e, _ => ([], decide (start ≤ e))
  | n + 1, start, e, step =>
    if e < start then
      let p := frangeDown n (start + step) e step
      (start :: p.1, p.2)
    else ([], true)

/-- `frange(start, end, step)` from `patterns.py`: if `start < end` run the
ascending loop, else if `start > end` run the descending loop, else yield
nothing. -/
def frange {α : Type} [LinearOrderedField α] (fuel : ℕ) (start e step : α) :
    List α × Bool :=
  if start < e then frangeUp fuel start e step
  else if e < start then frangeDown fuel start e step
  else ([], true)

section Generators

variable {α : Type} [LinearOrderedField α]

/-- `archimedean_spiral(draw, anti_clockwise, radial, loops, line_width,
iterations)`: `r = a·θ` sampled at `iterations` angular steps up to
`loops * tau`.  `mcos`, `msin` and `tau` are the ambient trigonometric
functions and the circle constant (`math.tau = 2π`); `fuel` bounds the
`frange` loop; the returned `Bool` is the loop's completion flag.  The two
divisions in the source raise `ZeroDivisionError` before anything is drawn
— `step_angle = max_angle / iterations` when `iterations = 0`, and the
amplitude `a = (1 - line_width / 2) / max_angle` when `max_angle = 0`
(i.e. when `loops = 0`) — modelled, in source order, by returning `none`.
Source defaults: `anti_clockwise=False, radial=True, loops=5,
line_width=0.05, iterations=10000`. -/
def archimedean_spiral (mcos msin : α → α) (tau : α) (fuel : ℕ)
    (anti_clockwise radial : Bool) (loops line_width : α) (iterations : ℕ) :
    Option (List (Cmd α) × Bool) :=
  let max_angle := loops * tau
  -- step_angle = max_angle / iterations: ZeroDivisionError when iterations = 0
  if (iterations : α) = 0 then none
  -- a = (1 - line_width / 2) / max_angle: ZeroDivisionError when max_angle = 0
  else if max_angle = 0 then none
  else
    let step_angle := max_angle / (iterations : α)
    -- Adjust the amplitude so that a thick line doesn't clip
    let a0 := (1 - line_width / 2) / max_angle
    let a := if anti_clockwise then -a0 else a0
    let f := frange fuel 0 max_angle step_angle
    let pts := f.1.map fun angle =>
      let r := a * angle
      Cmd.line_to (r * mcos angle) (r * msin angle)
    some
      (Cmd.move_to 0 0 :: pts ++
        [(if radial then Cmd.set_source_radial
          else Cmd.set_source_rgb 1 1 1),
         Cmd.set_line_width line_width, Cmd.set_line_cap LINE_CAP_ROUND,
         Cmd.stroke],
       f.2)

variable [FloorRing α]

/-- One row of a Truchet grid: for a fixed `x`, iterate the cell body over
the `y` values, threading the RNG and accumulating commands; the `Bool`
conjoins the completion flags reported by the cell bodies. -/
def rowFold (cell : α → α → RNG α → List (Cmd α) × RNG α × Bool) (x : α) :
    List α → RNG α → List (Cmd α) × RNG α × Bool
  | [], g => ([], g, true)
  | y :: ys, g =>
    let r := cell x y g
    let rest := rowFold cell x ys r.2.1
    (r.1 ++ rest.1, rest.2.1, r.2.2 && rest.2.2)

/-- The common Truchet loop skeleton `for x in frange(-1, 1, step): for y in
frange(-1, 1, step): <cell>` shared (textually repeated) by all six Truchet
generators in the source: iterate the cell body over the grid in row-major
order (outer `x`, inner `y`). -/
def gridFold (cell : α → α → RNG α → List (Cmd α) × RNG α × Bool) :
    List α → List α → RNG α → List (Cmd α) × RNG α × Bool
  | [], _, g => ([], g, true)
  | x :: xs, ys, g =>
    let r := rowFold cell x ys g
    let rest := gridFold cell xs ys r.2.1
    (r.1 ++ rest.1, rest.2.1, r.2.2 && rest.2.2)

/-- Cell body of `truchet_triangles`: one `random_choice` over the four
orientations, then the selected triangle outline. -/
def truchet_triangles_cell (r x y : α) (g : RNG α) :
    List (Cmd α) × RNG α × Bool :=
  let p := random_choice [1, 2, 3, 4] g
  let selection := p.1
  (if selection = 1 then
    [Cmd.move_to x y, Cmd.line_to x (y + r), Cmd.line_to (x + r) y,
     Cmd.line_to x y]
   else if selection = 2 then
    [Cmd.move_to (x + r) y, Cmd.line_to (x + r) (y + r), Cmd.line_to x y,
     Cmd.line_to (x + r) y]
   else if selection = 3 then
    [Cmd.move_to (x + r) (y + r), Cmd.line_to x (y + r),
     Cmd.line_to (x + r) y, Cmd.line_to (x + r) (y + r)]
   else if selection = 4 then
    [Cmd.move_to x (y + r), Cmd.line_to x y, Cmd.line_to (x + r) (y + r),
     Cmd.line_to x (y + r)]
   else [],
   p.2, true)

/-- `truchet_triangles(draw, resolution=0.1)`. -/
def truchet_triangles (fuel : ℕ) (resolution : α) (g : RNG α) :
    List (Cmd α) × RNG α × Bool :=
  let r := resolution
  let xs := frange fuel (-1) 1 r
  let res := gridFold (truchet_triangles_cell r) xs.1 xs.1 g
  (res.1 ++ [Cmd.set_source_rgb 1 1 1, Cmd.fill], res.2.1, xs.2 && res.2.2)

/-- Cell body of `truchet_quarter_cirlces` (sic): one `random_choice` over
two orientations, then two quarter-circle arcs. -/
def truchet_quarter_cirlces_cell (pi tau resolution r x y : α) (g : RNG α) :
    List (Cmd α) × RNG α × Bool :=
  let p := random_choice [1, 2] g
  let selection := p.1
  (if selection = 1 then
    [Cmd.new_sub_path, Cmd.arc x y r 0 (pi / 2),
     Cmd.new_sub_path,
     Cmd.arc (x + resolution) (y + resolution) r pi (pi * 3 / 2)]
   else if selection = 2 then
    [Cmd.new_sub_path, Cmd.arc (x + resolution) y r (pi / 2) pi,
     Cmd.new_sub_path, Cmd.arc x (y + resolution) r (pi * 3 / 2) tau]
   else [],
   p.2, true)

/-- `truchet_quarter_cirlces(draw, resolution=0.1, line_width=0.025)` — the
function name is misspelled exactly so in the source, and the registry keys
generators by function name. -/
def truchet_quarter_cirlces (pi tau : α) (fuel : ℕ)
    (resolution line_width : α) (g : RNG α) :
    List (Cmd α) × RNG α × Bool :=
  let r := resolution / 2
  let xs := frange fuel (-1) 1 resolution
  let res := gridFold (truchet_quarter_cirlces_cell pi tau resolution r)
    xs.1 xs.1 g
  (res.1 ++ [Cmd.set_source_rgb 1 1 1, Cmd.set_line_width line_width,
             Cmd.stroke],
   res.2.1, xs.2 && res.2.2)

/-- Cell body of `truchet_diagonals`: one `random_choice` over two
orientations, then one diagonal segment. -/
def truchet_diagonals_cell (r x y : α) (g : RNG α) :
    List (Cmd α) × RNG α × Bool :=
  let p := random_choice [1, 2] g
  let selection := p.1
  (if selection = 1 then [Cmd.move_to x y, Cmd.line_to (x + r) (y + r)]
   else if selection = 2 then [Cmd.move_to (x + r) y, Cmd.line_to x (y + r)]
   else [],
   p.2, true)

/-- `truchet_diagonals(draw, resolution=0.1, line_width=0.05)`. -/
def truchet_diagonals (fuel : ℕ) (resolution line_width : α) (g : RNG α) :
    List (Cmd α) × RNG α × Bool :=
  let r := resolution
  let xs := frange fuel (-1) 1 r
  let res := gridFold (truchet_diagonals_cell r) xs.1 xs.1 g
  (res.1 ++ [Cmd.set_source_rgb 1 1 1, Cmd.set_line_width line_width,
             Cmd.set_line_cap LINE_CAP_ROUND, Cmd.stroke],
   res.2.1, xs.2 && res.2.2)

/-- Cell body of `truchet_variation`: one `random_choice` over seven
orientations mixing arcs and polyline motifs. -/
def truchet_variation_cell (pi tau resolution r x y : α) (g : RNG α) :
    List (Cmd α) × RNG α × Bool :=
  let p := random_choice [1, 2, 3, 4, 5, 6, 7] g
  let selection := p.1
  (if selection = 1 then
    [Cmd.new_sub_path, Cmd.arc x y r 0 (pi / 2),
     Cmd.new_sub_path,
     Cmd.arc (x + resolution) (y + resolution) r pi (pi * 3 / 2)]
   else if selection = 2 then
    [Cmd.new_sub_path, Cmd.arc x y r 0 (pi / 2),
     Cmd.move_to (x + r) (y + resolution), Cmd.line_to (x + r) (y + r),
     Cmd.line_to (x + resolution) (y + r)]
   else if selection = 3 then
    [Cmd.new_sub_path,
     Cmd.arc (x + resolution) (y + resolution) r pi (pi * 3 / 2),
     Cmd.move_to (x + r) y, Cmd.line_to (x + r) (y + r),
     Cmd.line_to x (y + r)]
   else if selection = 4 then
    [Cmd.new_sub_path, Cmd.arc (x + resolution) y r (pi / 2) pi,
     Cmd.new_sub_path, Cmd.arc x (y + resolution) r (pi * 3 / 2) tau]
   else if selection = 5 then
    [Cmd.new_sub_path, Cmd.arc (x + resolution) y r (pi / 2) pi,
     Cmd.move_to x (y + r), Cmd.line_to (x + r) (y + r),
     Cmd.line_to (x + r) (y + resolution)]
   else if selection = 6 then
    [Cmd.new_sub_path, Cmd.arc x (y + resolution) r (pi * 3 / 2) tau,
     Cmd.move_to (x + r) y, Cmd.line_to (x + r) (y + r),
     Cmd.line_to (x + resolution) (y + r)]
   else if selection = 7 then
    [Cmd.move_to (x + r) y, Cmd.line_to (x + r) (y + resolution),
     Cmd.move_to x (y + r), Cmd.line_to (x + resolution) (y + r)]
   else [],
   p.2, true)

/-- `truchet_variation(draw, resolution=0.1, line_width=0.015)`. -/
def truchet_variation (pi tau : α) (fuel : ℕ) (resolution line_width : α)
    (g : RNG α) : List (Cmd α) × RNG α × Bool :=
  let r := resolution / 2
  let xs := frange fuel (-1) 1 resolution
  let res := gridFold (truchet_variation_cell pi tau resolution r)
    xs.1 xs.1 g
  (res.1 ++ [Cmd.set_source_rgb 1 1 1, Cmd.set_line_width line_width,
             Cmd.set_line_join LINE_JOIN_BEVEL, Cmd.stroke],
   res.2.1, xs.2 && res.2.2)

/-- Cell body of `truchet_12_variation`: one orientation draw, then two
independent shape draws (one per diagonal half) — three RNG draws per cell
in both orientation branches. -/
def truchet_12_variation_cell (pi tau resolution r x y : α) (g : RNG α) :
    List (Cmd α) × RNG α × Bool :=
  let p := random_choice [1, 2] g
  let selection := p.1
  if selection = 1 then
    -- Top left
    let q1 := random_choice [1, 2, 3] p.2
    let c1 :=
      if q1.1 = 1 then [Cmd.new_sub_path, Cmd.arc x y r 0 (pi / 2)]
      else if q1.1 = 2 then [Cmd.move_to (x + r) y, Cmd.line_to x (y + r)]
      else if q1.1 = 3 then
        [Cmd.move_to (x + r) y, Cmd.line_to (x + r) (y + r),
         Cmd.line_to x (y + r)]
      else []
    -- Bottom right
    let q2 := random_choice [1, 2, 3] q1.2
    let c2 :=
      if q2.1 = 1 then
        [Cmd.new_sub_path,
         Cmd.arc (x + resolution) (y + resolution) r pi (pi * 3 / 2)]
      else if q2.1 = 2 then
        [Cmd.move_to (x + r) (y + resolution),
         Cmd.line_to (x + resolution) (y + r)]
      else if q2.1 = 3 then
        [Cmd.move_to (x + r) (y + resolution), Cmd.line_to (x + r) (y + r),
         Cmd.line_to (x + resolution) (y + r)]
      else []
    (c1 ++ c2, q2.2, true)
  else if selection = 2 then
    -- Top right
    let q1 := random_choice [1, 2, 3] p.2
    let c1 :=
      if q1.1 = 1 then
        [Cmd.new_sub_path, Cmd.arc (x + resolution) y r (pi / 2) pi]
      else if q1.1 = 2 then
        [Cmd.move_to (x + r) y, Cmd.line_to (x + resolution) (y + r)]
      else if q1.1 = 3 then
        [Cmd.move_to (x + r) y, Cmd.line_to (x + r) (y + r),
         Cmd.line_to (x + resolution) (y + r)]
      else []
    -- Bottom left
    let q2 := random_choice [1, 2, 3] q1.2
    let c2 :=
      if q2.1 = 1 then
        [Cmd.new_sub_path, Cmd.arc x (y + resolution) r (pi * 3 / 2) tau]
      else if q2.1 = 2 then
        [Cmd.move_to x (y + r), Cmd.line_to (x + r) (y + resolution)]
      else if q2.1 = 3 then
        [Cmd.move_to x (y + r), Cmd.line_to (x + r) (y + r),
         Cmd.line_to (x + r) (y + resolution)]
      else []
    (c1 ++ c2, q2.2, true)
  else ([], p.2, true)

/-- `truchet_12_variation(draw, resolution=0.1, line_width=0.025)`. -/
def truchet_12_variation (pi tau : α) (fuel : ℕ)
    (resolution line_width : α) (g : RNG α) :
    List (Cmd α) × RNG α × Bool :=
  let r := resolution / 2
  let xs := frange fuel (-1) 1 resolution
  let res := gridFold (truchet_12_variation_cell pi tau resolution r)
    xs.1 xs.1 g
  (res.1 ++ [Cmd.set_source_rgb 1 1 1, Cmd.set_line_width line_width,
             Cmd.set_line_join LINE_JOIN_BEVEL,
             Cmd.set_line_cap LINE_CAP_ROUND, Cmd.stroke],
   res.2.1, xs.2 && res.2.2)

/-- Cell body of `truchet_diagonal_strips`: one `random_choice` over two
orientations, then a nested `frange` sweep of parallel strip segments; the
cell's flag is the inner loop's completion flag. -/
def truchet_diagonal_strips_cell (resolution line_width : α) (fuel : ℕ)
    (x y : α) (g : RNG α) : List (Cmd α) × RNG α × Bool :=
  let p := random_choice [1, 2] g
  let selection := p.1
  if selection = 1 then
    let ss := frange fuel line_width resolution (2 * line_width)
    (ss.1.flatMap fun s =>
      [Cmd.move_to (x + s) y, Cmd.line_to x (y + s),
       Cmd.move_to (x + resolution - s) (y + resolution),
       Cmd.line_to (x + resolution) (y + resolution - s)],
     p.2, ss.2)
  else if selection = 2 then
    let ss := frange fuel line_width resolution (2 * line_width)
    (ss.1.flatMap fun s =>
      [Cmd.move_to (x + s) y, Cmd.line_to (x + resolution) (y + resolution - s),
       Cmd.move_to x (y + s), Cmd.line_to (x + resolution - s) (y + resolution)],
     p.2, ss.2)
  else ([], p.2, true)

/-- `truchet_diagonal_strips(draw, resolution=0.1, line_width=0.01)`. -/
def truchet_diagonal_strips (fuel : ℕ) (resolution line_width : α)
    (g : RNG α) : List (Cmd α) × RNG α × Bool :=
  let r := resolution
  let xs := frange fuel (-1) 1 r
  let res := gridFold (truchet_diagonal_strips_cell resolution line_width fuel)
    xs.1 xs.1 g
  (res.1 ++ [Cmd.set_source_rgb 1 1 1, Cmd.set_line_width line_width,
             Cmd.set_line_cap LINE_CAP_ROUND, Cmd.stroke],
   res.2.1, xs.2 && res.2.2)

/-- The Python condition `sqrt((x2-x1)**2 + (y2-y1)**2) < r1 + r2` of
`random_spots`, characterised without square roots: for a sum of squares
`d2 ≥ 0`, `Real.sqrt d2 < s` iff `0 < s ∧ d2 < s^2` (see
`sqrt_lt_iff_sum_sq` below). -/
def bubble_intersects (b : α × α × α) (x1 y1 r1 : α) : Bool :=
  decide (0 < r1 + b.2.2 ∧
    (b.1 - x1) ^ 2 + (b.2.1 - y1) ^ 2 < (r1 + b.2.2) ^ 2)

/-- The rejection-sampling `while len(bubbles) < iterations` loop of
`random_spots`, with fuel bounding the number of sampling attempts.  Each
attempt draws `x1, y1 ~ uniform(-1, 1)` and `r1 ~ uniform(min_size,
max_size)` and accepts the disc iff it intersects no previously accepted
disc (the `for … else` in the source).  The `Bool` is `true` iff the loop's
guard became false within the budget. -/
def random_spots_loop (iterations : ℕ) (min_size max_size : α) :
    ℕ → List (α × α × α) → RNG α → List (α × α × α) × RNG α × Bool
  | 0, bubbles, g => (bubbles, g, decide (iterations ≤ bubbles.length))
  | fuel + 1, bubbles, g =>
    if bubbles.length < iterations then
      let p1 := random_uniform (-1) 1 g
      let p2 := random_uniform (-1) 1 p1.2
      let p3 := random_uniform min_size max_size p2.2
      if bubbles.any (fun b => bubble_intersects b p1.1 p2.1 p3.1) then
        random_spots_loop iterations min_size max_size fuel bubbles p3.2
      else
        random_spots_loop iterations min_size max_size fuel
          (bubbles ++ [(p1.1, p2.1, p3.1)]) p3.2
    else (bubbles, g, true)

/-- `random_spots(draw, iterations=1000, max_size=0.1, min_size=0.01,
random=True)`: pack discs by rejection sampling, then fill each with a grey
that is either a fresh `random.random()` draw or a function of the radius. -/
def random_spots (tau : α) (fuel iterations : ℕ)
    (max_size min_size : α) (random : Bool) (g : RNG α) :
    List (Cmd α) × RNG α × Bool :=
  let res := random_spots_loop iterations min_size max_size fuel [] g
  let draw := res.1.foldl
    (fun (acc : List (Cmd α) × RNG α) b =>
      let gp := if random then random_random acc.2
        else (1 - b.2.2 / (max_size - min_size), acc.2)
      (acc.1 ++ [Cmd.arc b.1 b.2.1 b.2.2 0 tau,
                 Cmd.set_source_rgb gp.1 gp.1 gp.1, Cmd.fill],
       gp.2))
    ([], res.2.1)
  (draw.1, draw.2, res.2.2)

end Generators

section Driver

/-- The keys of `REGISTERED_FUNCTIONS`, in registration (decorator) order.
`register` stores each generator under `func.__name__`, so the key list is
exactly the list of function names — including the misspelled
`truchet_quarter_cirlces`. -/
def REGISTERED_KEYS : List String :=
  ["archimedean_spiral", "archimedean_double_spiral", "theodorean_spiral",
   "triple_spiral", "borjgalo", "radials", "random_spots",
   "truchet_triangles", "truchet_quarter_cirlces", "truchet_diagonals",
   "truchet_variation", "truchet_12_variation", "truchet_diagonal_strips",
   "ring_blocks", "archimedean_blocks", "ring_wedges", "triangle", "fern"]

/-- The per-job surface preparation performed by `main` before dispatch:
black background over the 1000×1000 surface, then translate/scale the
context into `[-1, 1] × [-1, 1]` (`translate(500, 500); scale(500, 500)`). -/
def jobPreamble : List (Cmd ℚ) :=
  [Cmd.rectangle 0 0 1000 1000, Cmd.set_source_rgb 0 0 0, Cmd.fill,
   Cmd.translate 500 500, Cmd.scale 500 500]

/-- The debug overlay drawn by `main` under `--debug`: a red Cartesian grid
at 0.1 steps and a blue 32-spoke polar grid. -/
def debugGrid (mcos msin : ℚ → ℚ) (tau : ℚ) (fuel : ℕ) : List (Cmd ℚ) :=
  let offsets := frange fuel (-1) 1 (1 / 10)
  let cart := offsets.1.flatMap fun o =>
    [Cmd.move_to (-1) o, Cmd.line_to 1 o, Cmd.move_to o (-1),
     Cmd.line_to o 1]
  let angles := frange fuel 0 tau (tau / 32)
  let pol := angles.1.flatMap fun a =>
    [Cmd.move_to (polar_to_xy mcos msin (1 / 10) a).1
       (polar_to_xy mcos msin (1 / 10) a).2,
     Cmd.line_to (polar_to_xy mcos msin 1 a).1 (polar_to_xy mcos msin 1 a).2]
  cart ++ [Cmd.set_line_width (1 / 500), Cmd.set_source_rgb 1 0 0, Cmd.stroke]
    ++ pol ++ [Cmd.set_source_rgb 0 0 1, Cmd.stroke]

/-- The full command stream of one job as `main` produces it: surface
preparation, then the dispatched generator's commands (run from the
freshly-reseeded RNG `seedG`), then the optional debug overlay.  `gens` is
the value table of `REGISTERED_FUNCTIONS` (generator bodies keyed by name,
taking the job's parameter record of type `P`). -/
def renderJobCmds {P : Type}
    (gens : String → P → RNG ℚ → List (Cmd ℚ) × RNG ℚ) (seedG : RNG ℚ)
    (mcos msin : ℚ → ℚ) (tau : ℚ) (dfuel : ℕ) (debug : Bool)
    (job : String × P) : List (Cmd ℚ) :=
  jobPreamble ++ (gens job.1 job.2 seedG).1 ++
    (if debug then debugGrid mcos msin tau dfuel else [])

/-- The job loop of `main`: for each config in order, prepare the surface,
reseed the global RNG from the (batch-wide) seed — modelled by replacing the
threaded RNG state with `seedG` — look up `config['_fn']` in
`REGISTERED_FUNCTIONS`, run the generator, write the PNG (recorded as a
`(index, name, commands)` manifest entry), and continue with the mutated
RNG.  A missing key raises `KeyError` (the spec's `UnknownPattern`):
the loop stops, no further artifact is written, and the error carries the
unknown name; artifacts already written by earlier iterations remain. -/
def mainLoop {P : Type}
    (gens : String → P → RNG ℚ → List (Cmd ℚ) × RNG ℚ) (seedG : RNG ℚ)
    (mcos msin : ℚ → ℚ) (tau : ℚ) (dfuel : ℕ) (debug : Bool) :
    List (String × P) → ℕ → RNG ℚ →
    List (ℕ × String × List (Cmd ℚ)) × Option String
  | [], _, _ => ([], none)
  | job :: rest, n, _ =>
    -- random_seed(args.seed): the threaded RNG state is discarded and
    -- replaced by the seed-determined state before dispatch.
    let g1 := seedG
    if job.1 ∈ REGISTERED_KEYS then
      let r := gens job.1 job.2 g1
      let out := jobPreamble ++ r.1 ++
        (if debug then debugGrid mcos msin tau dfuel else [])
      let rest' := mainLoop gens seedG mcos msin tau dfuel debug rest
        (n + 1) r.2
      ((n, job.1, out) :: rest'.1, rest'.2)
    else ([], some job.1)

/-- `main`'s batch over a config list, starting from artifact index `0` and
an arbitrary initial RNG state `g0`.  Returns the manifest of written
artifacts and the `KeyError`ed pattern name, if any. -/
def mainModel {P : Type}
    (gens : String → P → RNG ℚ → List (Cmd ℚ) × RNG ℚ) (seedG : RNG ℚ)
    (mcos msin : ℚ → ℚ) (tau : ℚ) (dfuel : ℕ) (debug : Bool)
    (jobs : List (String × P)) (g0 : RNG ℚ) :
    List (ℕ × String × List (Cmd ℚ)) × Option String :=
  mainLoop gens seedG mcos msin tau dfuel debug jobs 0 g0

end Driver

section FrangeLemmas

variable {α : Type} [LinearOrderedField α]

theorem frangeUp_mem {step : α} (hs : 0 ≤ step) (n : ℕ) :
    ∀ start e x : α, x ∈ (frangeUp n start e step).1 → start ≤ x ∧ x < e := by
  induction n with
  | zero => intro start e x hx; simp [frangeUp] at hx
  | succ n ih =>
    intro start e x hx
    simp only [frangeUp] at hx
    split_ifs at hx with h
    · rcases List.mem_cons.mp hx with rfl | hx
      · exact ⟨le_refl _, h⟩
      · obtain ⟨h1, h2⟩ := ih (start + step) e x hx
        exact ⟨by linarith, h2⟩
    · simp at hx

theorem frangeDown_mem {step : α} (hs : step ≤ 0) (n : ℕ) :
    ∀ start e x : α, x ∈ (frangeDown n start e step).1 → e < x ∧ x ≤ start := by
  induction n with
  | zero => intro start e x hx; simp [frangeDown] at hx
  | succ n ih =>
    intro start e x hx
    simp only [frangeDown] at hx
    split_ifs at hx with h
    · rcases List.mem_cons.mp hx with rfl | hx
      · exact ⟨h, le_refl _⟩
      · obtain ⟨h1, h2⟩ := ih (start + step) e x hx
        exact ⟨h1, by linarith⟩
    · simp at hx

theorem frangeUp_chain {step : α} (hs : 0 < step) (n : ℕ) :
    ∀ start e : α, ((frangeUp n start e step).1).Chain' (· < ·) := by
  induction n with
  | zero => intro start e; simp [frangeUp]
  | succ n ih =>
    intro start e
    simp only [frangeUp]
    split_ifs with h
    · refine List.chain'_cons'.mpr ⟨?_, ih (start + step) e⟩
      intro y hy
      have hmem : y ∈ (frangeUp n (start + step) e step).1 :=
        List.mem_of_mem_head? hy
      have := (frangeUp_mem hs.le n (start + step) e y hmem).1
      simpa using lt_of_lt_of_le (by linarith : start < start + step) this
    · simp

theorem frangeDown_chain {step : α} (hs : step < 0) (n : ℕ) :
    ∀ start e : α, ((frangeDown n start e step).1).Chain' (· > ·) := by
  induction n with
  | zero => intro start e; simp [frangeDown]
  | succ n ih =>
    intro start e
    simp only [frangeDown]
    split_ifs with h
    · refine List.chain'_cons'.mpr ⟨?_, ih (start + step) e⟩
      intro y hy
      have hmem : y ∈ (frangeDown n (start + step) e step).1 :=
        List.mem_of_mem_head? hy
      have := (frangeDown_mem hs.le n (start + step) e y hmem).2
      simpa using lt_of_le_of_lt this (by linarith : start + step < start)
    · simp

theorem frangeUp_complete {step : α} (n : ℕ) :
    ∀ start e : α, e ≤ start + n * step →
      (frangeUp n start e step).2 = true := by
  induction n with
  | zero =>
    intro start e h
    simp only [frangeUp, decide_eq_true_eq]
    push_cast at h
    linarith
  | succ n ih =>
    intro start e h
    simp only [frangeUp]
    split_ifs with hlt
    · exact ih (start + step) e (by push_cast at h ⊢; linarith)
    · rfl

theorem frangeDown_complete {step : α} (n : ℕ) :
    ∀ start e : α, start + n * step ≤ e →
      (frangeDown n start e step).2 = true := by
  induction n with
  | zero =>
    intro start e h
    simp only [frangeDown, decide_eq_true_eq]
    push_cast at h
    linarith
  | succ n ih =>
    intro start e h
    simp only [frangeDown]
    split_ifs with hlt
    · exact ih (start + step) e (by push_cast at h ⊢; linarith)
    · rfl

theorem frangeUp_nil {step : α} (n : ℕ) (start e : α) (h : e ≤ start) :
    (frangeUp n start e step).1 = [] := by
  cases n <;> simp [frangeUp, if_neg (not_lt.mpr h)]

theorem frangeUp_length [FloorRing α] {step : α} (hs : 0 < step) (n : ℕ) :
    ∀ start e : α, (frangeUp n start e step).2 = true →
      ((frangeUp n start e step).1).length = ⌈(e - start) / step⌉₊ := by
  induction n with
  | zero =>
    intro start e h
    simp only [frangeUp, decide_eq_true_eq] at h
    simp only [frangeUp, List.length_nil]
    rw [eq_comm, Nat.ceil_eq_zero]
    exact div_nonpos_iff.mpr (Or.inr ⟨by linarith, hs.le⟩)
  | succ n ih =>
    intro start e h
    simp only [frangeUp] at h ⊢
    split_ifs at h ⊢ with hlt
    · simp only [List.length_cons]
      have hdiv : (e - (start + step)) / step = (e - start) / step - 1 := by
        field_simp
        ring
      rcases le_or_lt 1 ((e - start) / step) with h1 | h1
      · rw [ih (start + step) e h, hdiv, eq_comm]
        have h0 : (0 : α) ≤ (e - start) / step - 1 := by linarith
        calc ⌈(e - start) / step⌉₊
            = ⌈(e - start) / step - 1 + 1⌉₊ := by rw [sub_add_cancel]
          _ = ⌈(e - start) / step - 1⌉₊ + 1 := Nat.ceil_add_one h0
      · have hq : 0 < (e - start) / step := div_pos (by linarith) hs
        have hrest : e ≤ start + step := by
          by_contra hcon
          push_neg at hcon
          have : 1 < (e - start) / step :=
            (one_lt_div hs).mpr (by linarith)
          linarith
        rw [frangeUp_nil n (start + step) e hrest]
        rw [eq_comm]
        have hle : ⌈(e - start) / step⌉₊ ≤ 1 := by
          rw [Nat.ceil_le]
          push_cast
          linarith
        have hpos : 0 < ⌈(e - start) / step⌉₊ := Nat.ceil_pos.mpr hq
        simp only [List.length_nil]
        omega
    · simp only [List.length_nil]
      rw [eq_comm, Nat.ceil_eq_zero]
      exact div_nonpos_iff.mpr (Or.inr ⟨by linarith [not_lt.mp hlt], hs.le⟩)

end FrangeLemmas

section GridLemmas

variable {α : Type} [LinearOrderedField α] [FloorRing α]

theorem rowFold_advance {k : ℕ}
    {cell : α → α → RNG α → List (Cmd α) × RNG α × Bool}
    (hcell : ∀ x y (g : RNG α), InRange g.stream →
      (cell x y g).2.1.stream = g.stream ∧ (cell x y g).2.1.idx = g.idx + k)
    (x : α) : ∀ (ys : List α) (g : RNG α), InRange g.stream →
      (rowFold cell x ys g).2.1.stream = g.stream ∧
      (rowFold cell x ys g).2.1.idx = g.idx + ys.length * k := by
  intro ys
  induction ys with
  | nil => intro g hg; simp [rowFold]
  | cons y ys ih =>
    intro g hg
    obtain ⟨hstr, hidx⟩ := hcell x y g hg
    have hg2 : InRange (cell x y g).2.1.stream := by rw [hstr]; exact hg
    obtain ⟨hstr2, hidx2⟩ := ih (cell x y g).2.1 hg2
    simp only [rowFold, List.length_cons]
    refine ⟨by rw [hstr2, hstr], ?_⟩
    rw [hidx2, hidx]
    ring

theorem gridFold_advance {k : ℕ}
    {cell : α → α → RNG α → List (Cmd α) × RNG α × Bool}
    (hcell : ∀ x y (g : RNG α), InRange g.stream →
      (cell x y g).2.1.stream = g.stream ∧ (cell x y g).2.1.idx = g.idx + k)
    (ys : List α) : ∀ (xs : List α) (g : RNG α), InRange g.stream →
      (gridFold cell xs ys g).2.1.stream = g.stream ∧
      (gridFold cell xs ys g).2.1.idx = g.idx + xs.length * (ys.length * k) := by
  intro xs
  induction xs with
  | nil => intro g hg; simp [gridFold]
  | cons x xs ih =>
    intro g hg
    obtain ⟨hstr, hidx⟩ := rowFold_advance hcell x ys g hg
    have hg2 : InRange (rowFold cell x ys g).2.1.stream := by rw [hstr]; exact hg
    obtain ⟨hstr2, hidx2⟩ := ih (rowFold cell x ys g).2.1 hg2
    simp only [gridFold, List.length_cons]
    refine ⟨by rw [hstr2, hstr], ?_⟩
    rw [hidx2, hidx]
    ring

theorem truchet_triangles_cell_advance (r x y : α) (g : RNG α)
    (hg : InRange g.stream) :
    (truchet_triangles_cell r x y g).2.1.stream = g.stream ∧
    (truchet_triangles_cell r x y g).2.1.idx = g.idx + 1 := by
  simp [truchet_triangles_cell, random_choice, random_random]

theorem truchet_quarter_cirlces_cell_advance (pi tau resolution r x y : α)
    (g : RNG α) (hg : InRange g.stream) :
    (truchet_quarter_cirlces_cell pi tau resolution r x y g).2.1.stream
      = g.stream ∧
    (truchet_quarter_cirlces_cell pi tau resolution r x y g).2.1.idx
      = g.idx + 1 := by
  simp [truchet_quarter_cirlces_cell, random_choice, random_random]

theorem truchet_diagonals_cell_advance (r x y : α) (g : RNG α)
    (hg : InRange g.stream) :
    (truchet_diagonals_cell r x y g).2.1.stream = g.stream ∧
    (truchet_diagonals_cell r x y g).2.1.idx = g.idx + 1 := by
  simp [truchet_diagonals_cell, random_choice, random_random]

theorem truchet_variation_cell_advance (pi tau resolution r x y : α)
    (g : RNG α) (hg : InRange g.stream) :
    (truchet_variation_cell pi tau resolution r x y g).2.1.stream
      = g.stream ∧
    (truchet_variation_cell pi tau resolution r x y g).2.1.idx
      = g.idx + 1 := by
  simp [truchet_variation_cell, random_choice, random_random]

theorem truchet_diagonal_strips_cell_advance (resolution line_width : α)
    (fuel : ℕ) (x y : α) (g : RNG α) (hg : InRange g.stream) :
    (truchet_diagonal_strips_cell resolution line_width fuel x y g).2.1.stream
      = g.stream ∧
    (truchet_diagonal_strips_cell resolution line_width fuel x y g).2.1.idx
      = g.idx + 1 := by
  simp only [truchet_diagonal_strips_cell, random_choice, random_random]
  split_ifs <;> simp

theorem truchet_12_variation_cell_advance (pi tau resolution r x y : α)
    (g : RNG α) (hg : InRange g.stream) :
    (truchet_12_variation_cell pi tau resolution r x y g).2.1.stream
      = g.stream ∧
    (truchet_12_variation_cell pi tau resolution r x y g).2.1.idx
      = g.idx + 3 := by
  obtain ⟨hu0, hu1⟩ := hg g.idx
  have hfloor : ⌊g.stream g.idx * (2 : α)⌋ = 0 ∨ ⌊g.stream g.idx * (2 : α)⌋ = 1 := by
    have h0 : (0 : ℤ) ≤ ⌊g.stream g.idx * (2 : α)⌋ :=
      Int.floor_nonneg.mpr (by nlinarith)
    have h2 : ⌊g.stream g.idx * (2 : α)⌋ < 2 :=
      Int.floor_lt.mpr (by push_cast; nlinarith)
    omega
  rcases hfloor with hf | hf <;>
    simp [truchet_12_variation_cell, random_choice, random_random, hf]

end GridLemmas

section RealBridge

/-- Justification of the square-root-free embedding of the comparison
`sqrt(d2) < s` used by `bubble_intersects`: for a nonnegative radicand the
Python test is equivalent to `0 < s ∧ d2 < s²`. -/
theorem sqrt_lt_iff_sum_sq {d s : ℝ} (hd : 0 ≤ d) :
    Real.sqrt d < s ↔ (0 < s ∧ d < s ^ 2) := by
  constructor
  · intro h
    have hs : 0 < s := lt_of_le_of_lt (Real.sqrt_nonneg d) h
    exact ⟨hs, (Real.sqrt_lt' hs).mp h⟩
  · rintro ⟨hs, hlt⟩
    exact (Real.sqrt_lt' hs).mpr hlt

/-- The Euclidean norm of the point `(r cos θ, r sin θ)` is `|r|`. -/
theorem sqrt_point_radius (r θ : ℝ) :
    Real.sqrt ((r * Real.cos θ) ^ 2 + (r * Real.sin θ) ^ 2) = |r| := by
  have h : (r * Real.cos θ) ^ 2 + (r * Real.sin θ) ^ 2 = r ^ 2 := by
    linear_combination r ^ 2 * Real.sin_sq_add_cos_sq θ
  rw [h, Real.sqrt_sq_eq_abs]

/-- A disc pair that fails `bubble_intersects` is separated by at least the
sum of the radii, in genuine Euclidean distance. -/
theorem not_intersects_dist_ge {b : ℚ × ℚ × ℚ} {x1 y1 r1 : ℚ}
    (h : bubble_intersects b x1 y1 r1 = false) :
    (b.2.2 : ℝ) + r1 ≤
      Real.sqrt (((x1 : ℝ) - b.1) ^ 2 + ((y1 : ℝ) - b.2.1) ^ 2) := by
  simp only [bubble_intersects, decide_eq_false_iff_not, not_and, not_lt] at h
  rcases le_or_lt (r1 + b.2.2) 0 with hs | hs
  · have h0 : ((b.2.2 : ℝ) + r1) ≤ 0 := by
      exact_mod_cast (by linarith : b.2.2 + r1 ≤ (0 : ℚ))
    exact le_trans h0 (Real.sqrt_nonneg _)
  · have hd : ((r1 + b.2.2 : ℚ) : ℝ) ^ 2 ≤
        ((b.1 - x1 : ℚ) : ℝ) ^ 2 + ((b.2.1 - y1 : ℚ) : ℝ) ^ 2 := by
      exact_mod_cast h hs
    have hsr : (0 : ℝ) ≤ ((r1 + b.2.2 : ℚ) : ℝ) := by exact_mod_cast hs.le
    have hle := (Real.le_sqrt hsr (by positivity)).mpr hd
    calc (b.2.2 : ℝ) + r1 = ((r1 + b.2.2 : ℚ) : ℝ) := by push_cast; ring
      _ ≤ Real.sqrt (((b.1 - x1 : ℚ) : ℝ) ^ 2 + ((b.2.1 - y1 : ℚ) : ℝ) ^ 2) :=
          hle
      _ = Real.sqrt (((x1 : ℝ) - b.1) ^ 2 + ((y1 : ℝ) - b.2.1) ^ 2) := by
          push_cast
          ring_nf

end RealBridge

section UnfoldHelpers

variable {α : Type} [LinearOrderedField α]

theorem frangeUp_zero (start e step : α) :
    frangeUp 0 start e step = ([], decide (e ≤ start)) := rfl

theorem frangeUp_succ (n : ℕ) (start e step : α) :
    frangeUp (n + 1) start e step =
      if start < e then
        (start :: (frangeUp n (start + step) e step).1,
         (frangeUp n (start + step) e step).2)
      else ([], true) := rfl

theorem frangeDown_zero (start e step : α) :
    frangeDown 0 start e step = ([], decide (start ≤ e)) := rfl

theorem frangeDown_succ (n : ℕ) (start e step : α) :
    frangeDown (n + 1) start e step =
      if e < start then
        (start :: (frangeDown n (start + step) e step).1,
         (frangeDown n (start + step) e step).2)
      else ([], true) := rfl

theorem frangeUp_stop {start e : α} (h : e ≤ start) (n : ℕ) (step : α) :
    frangeUp n start e step = ([], true) := by
  cases n
  · simp [frangeUp_zero, h]
  · rw [frangeUp_succ, if_neg (not_lt.mpr h)]

theorem frangeDown_stop {start e : α} (h : start ≤ e) (n : ℕ) (step : α) :
    frangeDown n start e step = ([], true) := by
  cases n
  · simp [frangeDown_zero, h]
  · rw [frangeDown_succ, if_neg (not_lt.mpr h)]

theorem frangeUp_zero_step {start e : α} (h : start < e) {step : α}
    (hs : step ≤ 0) (n : ℕ) :
    (frangeUp n start e step).2 = false ∧
    (frangeUp n start e step).1.length = n := by
  induction n generalizing start with
  | zero => simp [frangeUp_zero, not_le.mpr h]
  | succ n ih =>
    have h2 : start + step < e := by linarith
    obtain ⟨h1, h2'⟩ := ih h2
    rw [frangeUp_succ, if_pos h]
    exact ⟨h1, by simp [h2']⟩

end UnfoldHelpers

section ClaimC3

/-- C3: the claim says `frange` fails fast (or yields empty) when `step = 0`
or `sign(step)` opposes `sign(end - start)`.  The code does the opposite: at
`frange(0, 1, 0)` and at `frange(0, 1, -1)` the ascending `while` loop's
guard never becomes false, so the Python generator yields one value per
iteration forever.  Formally: at every fuel `n` the loop is still
incomplete and has already yielded `n` values. -/
theorem frange_bad_step_loops_forever (n : ℕ) :
    ((frange (α := ℚ) n 0 1 0).2 = false ∧
     (frange (α := ℚ) n 0 1 0).1.length = n) ∧
    ((frange (α := ℚ) n 0 1 (-1)).2 = false ∧
     (frange (α := ℚ) n 0 1 (-1)).1.length = n) := by
  have h01 : (0 : ℚ) < 1 := by norm_num
  constructor
  · have h := frangeUp_zero_step h01 (le_refl (0 : ℚ)) n
    simpa [frange, h01] using h
  · have h := frangeUp_zero_step h01 (by norm_num : (-1 : ℚ) ≤ 0) n
    simpa [frange, h01] using h

end ClaimC3

section ClaimC2

/-- C2 counterexample: at `(a, b, s) = (0, 1, 1)` the code yields exactly
`[0]` (and terminates), but `0` does not lie in the claimed interval
`(min(a,b), max(a,b)] = (0, 1]`: the sequence is closed at the start value
and open at the end value, not the other way around. -/
theorem frange_interval_counterexample :
    (frange (α := ℚ) 5 0 1 1).1 = [0] ∧
    (frange (α := ℚ) 5 0 1 1).2 = true ∧
    ¬ (∀ x ∈ (frange (α := ℚ) 5 0 1 1).1,
        min (0 : ℚ) 1 < x ∧ x ≤ max (0 : ℚ) 1) := by
  have h5 : frange (α := ℚ) 5 0 1 1 = ([0], true) := by
    rw [frange, if_pos (by norm_num : (0 : ℚ) < 1),
      show (5 : ℕ) = 4 + 1 from rfl, frangeUp_succ,
      if_pos (by norm_num : (0 : ℚ) < 1),
      frangeUp_stop (by norm_num : (1 : ℚ) ≤ 0 + 1)]
  refine ⟨by rw [h5], by rw [h5], ?_⟩
  intro h
  have := (h 0 (by rw [h5]; exact List.mem_singleton_self 0)).1
  simp at this

/-- C2 (amended): `frange(a, a, s)` is empty; and for `s ≠ 0` with
`sign(s) = sign(b - a)` the sequence terminates (fuel `⌈(b-a)/s⌉₊`
suffices), is strictly monotonic in the travel direction, and every element
lies in `[a, b)` when ascending respectively `(b, a]` when descending —
closed at the start value and open at the end value. -/
theorem frange_monotone_bounded (a b s : ℚ)
    (h : (a < b ∧ 0 < s) ∨ (b < a ∧ s < 0)) :
    (frange ⌈(b - a) / s⌉₊ a b s).2 = true ∧
    (a < b → (frange ⌈(b - a) / s⌉₊ a b s).1.Chain' (· < ·) ∧
      ∀ x ∈ (frange ⌈(b - a) / s⌉₊ a b s).1, a ≤ x ∧ x < b) ∧
    (b < a → (frange ⌈(b - a) / s⌉₊ a b s).1.Chain' (· > ·) ∧
      ∀ x ∈ (frange ⌈(b - a) / s⌉₊ a b s).1, b < x ∧ x ≤ a) ∧
    (∀ (n : ℕ) (s2 : ℚ), frange n a a s2 = ([], true)) := by
  have hself : ∀ (n : ℕ) (s2 : ℚ), frange n a a s2 = ([], true) := by
    intro n s2
    simp [frange]
  rcases h with ⟨hab, hs⟩ | ⟨hba, hs⟩
  · have hcomp : (frangeUp ⌈(b - a) / s⌉₊ a b s).2 = true := by
      apply frangeUp_complete
      have h2 : (b - a) / s ≤ (⌈(b - a) / s⌉₊ : ℚ) := Nat.le_ceil _
      have h3 : b - a ≤ (⌈(b - a) / s⌉₊ : ℚ) * s := by
        have := mul_le_mul_of_nonneg_right h2 hs.le
        rwa [div_mul_cancel₀ _ hs.ne'] at this
      linarith
    rw [frange, if_pos hab]
    refine ⟨hcomp, fun _ => ⟨frangeUp_chain hs _ a b, ?_⟩,
      fun hba => absurd hab (asymm hba), hself⟩
    intro x hx
    exact frangeUp_mem hs.le _ a b x hx
  · have hcomp : (frangeDown ⌈(b - a) / s⌉₊ a b s).2 = true := by
      apply frangeDown_complete
      have h2 : (b - a) / s ≤ (⌈(b - a) / s⌉₊ : ℚ) := Nat.le_ceil _
      have h3 : (⌈(b - a) / s⌉₊ : ℚ) * s ≤ b - a := by
        have := mul_le_mul_of_nonpos_right h2 hs.le
        rwa [div_mul_cancel₀ _ hs.ne] at this
      linarith
    rw [frange, if_neg (not_lt.mpr hba.le), if_pos hba]
    refine ⟨hcomp, fun hab => absurd hba (asymm hab),
      fun _ => ⟨frangeDown_chain hs _ a b, ?_⟩, hself⟩
    intro x hx
    have := frangeDown_mem hs.le _ a b x hx
    exact ⟨this.1, this.2⟩

/-- Witness for the amended C2 statement at `(a, b, s) = (0, 1, 1/2)`. -/
theorem frange_monotone_bounded_witness :
    (frange (α := ℚ) ⌈((1 : ℚ) - 0) / (1 / 2)⌉₊ 0 1 (1 / 2)).2 = true ∧
    (frange (α := ℚ) ⌈((1 : ℚ) - 0) / (1 / 2)⌉₊ 0 1 (1 / 2)).1.Chain' (· < ·) := by
  have h := frange_monotone_bounded 0 1 (1 / 2)
    (Or.inl ⟨by norm_num, by norm_num⟩)
  exact ⟨h.1, (h.2.1 (by norm_num)).1⟩

end ClaimC2

section DriverLemmas

theorem mainLoop_all_known {P : Type}
    (gens : String → P → RNG ℚ → List (Cmd ℚ) × RNG ℚ) (seedG : RNG ℚ)
    (mcos msin : ℚ → ℚ) (tau : ℚ) (dfuel : ℕ) (debug : Bool) :
    ∀ (jobs : List (String × P)) (n : ℕ) (g : RNG ℚ),
      (∀ j ∈ jobs, j.1 ∈ REGISTERED_KEYS) →
      mainLoop gens seedG mcos msin tau dfuel debug jobs n g =
        ((jobs.enumFrom n).map fun nj =>
          (nj.1, nj.2.1,
            renderJobCmds gens seedG mcos msin tau dfuel debug nj.2),
         none) := by
  intro jobs
  induction jobs with
  | nil => intro n g _; simp [mainLoop]
  | cons job rest ih =>
    intro n g hknown
    have hj : job.1 ∈ REGISTERED_KEYS := hknown job (List.mem_cons_self _ _)
    simp only [mainLoop, if_pos hj]
    rw [ih (n + 1) (gens job.1 job.2 seedG).2
      (fun j hjr => hknown j (List.mem_cons_of_mem _ hjr))]
    simp [List.enumFrom, renderJobCmds]

theorem mainLoop_aborts_at_unknown {P : Type}
    (gens : String → P → RNG ℚ → List (Cmd ℚ) × RNG ℚ) (seedG : RNG ℚ)
    (mcos msin : ℚ → ℚ) (tau : ℚ) (dfuel : ℕ) (debug : Bool)
    (bad : String × P) (post : List (String × P))
    (hbad : bad.1 ∉ REGISTERED_KEYS) :
    ∀ (pre : List (String × P)) (n : ℕ) (g : RNG ℚ),
      (∀ j ∈ pre, j.1 ∈ REGISTERED_KEYS) →
      mainLoop gens seedG mcos msin tau dfuel debug (pre ++ bad :: post) n g =
        ((pre.enumFrom n).map fun nj =>
          (nj.1, nj.2.1,
            renderJobCmds gens seedG mcos msin tau dfuel debug nj.2),
         some bad.1) := by
  intro pre
  induction pre with
  | nil =>
    intro n g _
    simp only [List.nil_append, List.enumFrom, List.map_nil]
    rw [mainLoop, if_neg hbad]
  | cons job rest ih =>
    intro n g hknown
    have hj : job.1 ∈ REGISTERED_KEYS := hknown job (List.mem_cons_self _ _)
    rw [List.cons_append]
    simp only [mainLoop, if_pos hj]
    rw [ih (n + 1) (gens job.1 job.2 seedG).2
      (fun j hjr => hknown j (List.mem_cons_of_mem _ hjr))]
    simp [List.enumFrom, renderJobCmds]

end DriverLemmas

section ClaimC1

/-- C1: determinism of the render driver.  Because `main` reseeds the global
RNG from the batch seed state `seedG` at the start of every job, the whole
batch result is independent of the incoming RNG state (`g0` versus `g1`,
i.e. two executions with different RNG histories produce identical
drawing-command streams), and every job's manifest entry is the pure
function `renderJobCmds` of the seed state and that job alone. -/
theorem main_deterministic {P : Type}
    (gens : String → P → RNG ℚ → List (Cmd ℚ) × RNG ℚ) (seedG : RNG ℚ)
    (mcos msin : ℚ → ℚ) (tau : ℚ) (dfuel : ℕ) (debug : Bool)
    (jobs : List (String × P)) (g0 g1 : RNG ℚ)
    (hknown : ∀ j ∈ jobs, j.1 ∈ REGISTERED_KEYS) :
    mainModel gens seedG mcos msin tau dfuel debug jobs g0 =
      mainModel gens seedG mcos msin tau dfuel debug jobs g1 ∧
    mainModel gens seedG mcos msin tau dfuel debug jobs g0 =
      (jobs.enum.map fun nj =>
        (nj.1, nj.2.1,
          renderJobCmds gens seedG mcos msin tau dfuel debug nj.2),
       none) := by
  have h0 := mainLoop_all_known gens seedG mcos msin tau dfuel debug jobs 0
    g0 hknown
  have h1 := mainLoop_all_known gens seedG mcos msin tau dfuel debug jobs 0
    g1 hknown
  refine ⟨?_, ?_⟩
  · rw [mainModel, mainModel, h0, h1]
  · rw [mainModel, h0, List.enum]

/-- Witness for C1: a one-job batch dispatching `radials`, run from two
different initial RNG states. -/
theorem main_deterministic_witness :
    mainModel (fun (_ : String) (_ : Unit) (g : RNG ℚ) => ([], g))
        ⟨fun _ => 0, 0⟩ id id 0 0 false [("radials", ())] ⟨fun _ => 0, 0⟩ =
      mainModel (fun (_ : String) (_ : Unit) (g : RNG ℚ) => ([], g))
        ⟨fun _ => 0, 0⟩ id id 0 0 false [("radials", ())] ⟨fun _ => 0, 7⟩ ∧
    mainModel (fun (_ : String) (_ : Unit) (g : RNG ℚ) => ([], g))
        ⟨fun _ => 0, 0⟩ id id 0 0 false [("radials", ())] ⟨fun _ => 0, 0⟩ =
      ([("radials", ())].enum.map fun nj =>
        (nj.1, nj.2.1,
          renderJobCmds (fun (_ : String) (_ : Unit) (g : RNG ℚ) => ([], g))
            ⟨fun _ => 0, 0⟩ id id 0 0 false nj.2),
       none) :=
  main_deterministic (fun _ _ g => ([], g)) ⟨fun _ => 0, 0⟩ id id 0 0 false
    [("radials", ())] ⟨fun _ => 0, 0⟩ ⟨fun _ => 0, 7⟩
    (by
      intro j hj
      rw [List.mem_singleton] at hj
      subst hj
      decide)

end ClaimC1

section ClaimC9

/-- C9 counterexample: a batch `[radials-job, unknown-job]`.  Contrary to
the claim that the batch aborts before any rendering begins, the job
preceding the unknown name has already been rendered and persisted (the
manifest of written artifacts has length 1), and only then does dispatch
fail with the unknown name. -/
theorem main_unknown_pattern_counterexample :
    mainModel (fun (_ : String) (_ : Unit) (g : RNG ℚ) => ([], g))
        ⟨fun _ => 0, 0⟩ id id 0 0 false [("radials", ()), ("nope", ())]
        ⟨fun _ => 0, 0⟩ =
      ([(0, "radials", jobPreamble ++ [] ++ [])], some "nope") ∧
    (mainModel (fun (_ : String) (_ : Unit) (g : RNG ℚ) => ([], g))
        ⟨fun _ => 0, 0⟩ id id 0 0 false [("radials", ()), ("nope", ())]
        ⟨fun _ => 0, 0⟩).1.length = 1 := by
  have h := mainLoop_aborts_at_unknown
    (fun (_ : String) (_ : Unit) (g : RNG ℚ) => ([], g)) ⟨fun _ => 0, 0⟩
    id id 0 0 false ("nope", ()) [] (by decide) [("radials", ())] 0
    ⟨fun _ => 0, 0⟩
    (by
      intro j hj
      rw [List.mem_singleton] at hj
      subst hj
      decide)
  rw [mainModel]
  rw [show ([("radials", ()), ("nope", ())] : List (String × Unit)) =
    [("radials", ())] ++ ("nope", ()) :: [] from rfl, h]
  constructor
  · simp [List.enumFrom, renderJobCmds]
  · simp

/-- C9 (amended): when the job list is a block of registered names followed
by a job with an unknown pattern name, dispatch of the unknown name raises
the `KeyError` (the spec's `UnknownPattern`) at the point that job is
reached: every job before it has already been rendered and persisted, the
unknown job and everything after it produce no artifact, and no manifest is
returned. -/
theorem main_unknown_pattern_aborts {P : Type}
    (gens : String → P → RNG ℚ → List (Cmd ℚ) × RNG ℚ) (seedG : RNG ℚ)
    (mcos msin : ℚ → ℚ) (tau : ℚ) (dfuel : ℕ) (debug : Bool)
    (pre : List (String × P)) (bad : String × P) (post : List (String × P))
    (g0 : RNG ℚ) (hpre : ∀ j ∈ pre, j.1 ∈ REGISTERED_KEYS)
    (hbad : bad.1 ∉ REGISTERED_KEYS) :
    mainModel gens seedG mcos msin tau dfuel debug (pre ++ bad :: post) g0 =
      (pre.enum.map fun nj =>
        (nj.1, nj.2.1,
          renderJobCmds gens seedG mcos msin tau dfuel debug nj.2),
       some bad.1) := by
  rw [mainModel, mainLoop_aborts_at_unknown gens seedG mcos msin tau dfuel
    debug bad post hbad pre 0 g0 hpre, List.enum]

/-- Witness for the amended C9 statement on the concrete batch
`[radials-job, unknown-job]`. -/
theorem main_unknown_pattern_aborts_witness :
    mainModel (fun (_ : String) (_ : Unit) (g : RNG ℚ) => ([], g))
        ⟨fun _ => 0, 0⟩ id id 0 0 false
        ([("radials", ())] ++ ("nope", ()) :: []) ⟨fun _ => 0, 0⟩ =
      ([("radials", ())].enum.map fun nj =>
        (nj.1, nj.2.1,
          renderJobCmds (fun (_ : String) (_ : Unit) (g : RNG ℚ) => ([], g))
            ⟨fun _ => 0, 0⟩ id id 0 0 false nj.2),
       some "nope") :=
  main_unknown_pattern_aborts (fun _ _ g => ([], g)) ⟨fun _ => 0, 0⟩ id id 0
    0 false [("radials", ())] ("nope", ()) [] ⟨fun _ => 0, 0⟩
    (by
      intro j hj
      rw [List.mem_singleton] at hj
      subst hj
      decide)
    (by decide)

end ClaimC9

section ClaimC10

/-- C10: the registry keys each generator by its function name, so the
quarter-circle Truchet generator sits under the misspelled key
`truchet_quarter_cirlces`; no key `truchet_quarter_circles` exists, and
dispatching the correctly-spelled name fails with the unknown-pattern
lookup error (and renders nothing) instead of drawing quarter circles. -/
theorem registry_key_misspelled {P : Type}
    (gens : String → P → RNG ℚ → List (Cmd ℚ) × RNG ℚ) (seedG : RNG ℚ)
    (mcos msin : ℚ → ℚ) (tau : ℚ) (dfuel : ℕ) (debug : Bool) (p : P)
    (g0 : RNG ℚ) :
    "truchet_quarter_cirlces" ∈ REGISTERED_KEYS ∧
    "truchet_quarter_circles" ∉ REGISTERED_KEYS ∧
    mainModel gens seedG mcos msin tau dfuel debug
        [("truchet_quarter_circles", p)] g0 =
      ([], some "truchet_quarter_circles") := by
  have hnot : ("truchet_quarter_circles" : String) ∉ REGISTERED_KEYS := by
    decide
  refine ⟨by decide, hnot, ?_⟩
  rw [mainModel, mainLoop, if_neg hnot]

end ClaimC10

section ClaimC4

theorem frange_grid_length {r : ℚ} (hr : 0 < r) {fuel : ℕ}
    (hfuel : ⌈(2 : ℚ) / r⌉₊ ≤ fuel) :
    (frange fuel (-1 : ℚ) 1 r).1.length = ⌈(2 : ℚ) / r⌉₊ ∧
    (frange fuel (-1 : ℚ) 1 r).2 = true := by
  have hneg : (-1 : ℚ) < 1 := by norm_num
  have hcomp : (frangeUp fuel (-1 : ℚ) 1 r).2 = true := by
    apply frangeUp_complete
    have h1 : ((⌈(2 : ℚ) / r⌉₊ : ℚ)) ≤ (fuel : ℚ) := by exact_mod_cast hfuel
    have h2 : (2 : ℚ) / r ≤ (⌈(2 : ℚ) / r⌉₊ : ℚ) := Nat.le_ceil _
    have h3 : (2 : ℚ) ≤ (fuel : ℚ) * r := by
      have h4 := mul_le_mul_of_nonneg_right (le_trans h2 h1) hr.le
      rwa [div_mul_cancel₀ _ hr.ne'] at h4
    linarith
  have hlen := frangeUp_length hr fuel (-1 : ℚ) 1 hcomp
  rw [frange, if_pos hneg]
  refine ⟨?_, hcomp⟩
  rw [hlen]
  norm_num

/-- C4 (amended): for every resolution `0 < r < 2` (and enough fuel for the
grid loops to complete), each Truchet grid generator consumes exactly
`⌈2/r⌉₊²` RNG draws — one `random_choice` per cell of the row-major
(outer `x`, inner `y`) grid — except `truchet_12_variation`, which consumes
exactly three draws per cell (one orientation selector plus two independent
shape selectors, one per diagonal half), i.e. `3·⌈2/r⌉₊²` in total. -/
theorem truchet_rng_draw_counts (pi tau resolution line_width : ℚ)
    (fuel : ℕ) (g : RNG ℚ) (hg : InRange g.stream)
    (hr0 : 0 < resolution) (hr2 : resolution < 2)
    (hfuel : ⌈(2 : ℚ) / resolution⌉₊ ≤ fuel) :
    (truchet_triangles fuel resolution g).2.1.idx =
      g.idx + ⌈(2 : ℚ) / resolution⌉₊ * ⌈(2 : ℚ) / resolution⌉₊ ∧
    (truchet_quarter_cirlces pi tau fuel resolution line_width g).2.1.idx =
      g.idx + ⌈(2 : ℚ) / resolution⌉₊ * ⌈(2 : ℚ) / resolution⌉₊ ∧
    (truchet_diagonals fuel resolution line_width g).2.1.idx =
      g.idx + ⌈(2 : ℚ) / resolution⌉₊ * ⌈(2 : ℚ) / resolution⌉₊ ∧
    (truchet_variation pi tau fuel resolution line_width g).2.1.idx =
      g.idx + ⌈(2 : ℚ) / resolution⌉₊ * ⌈(2 : ℚ) / resolution⌉₊ ∧
    (truchet_diagonal_strips fuel resolution line_width g).2.1.idx =
      g.idx + ⌈(2 : ℚ) / resolution⌉₊ * ⌈(2 : ℚ) / resolution⌉₊ ∧
    (truchet_12_variation pi tau fuel resolution line_width g).2.1.idx =
      g.idx + 3 * (⌈(2 : ℚ) / resolution⌉₊ * ⌈(2 : ℚ) / resolution⌉₊) := by
  obtain ⟨hlen, hflag⟩ := frange_grid_length hr0 hfuel
  refine ⟨?_, ?_, ?_, ?_, ?_, ?_⟩
  · simp only [truchet_triangles]
    obtain ⟨_, hidx⟩ := gridFold_advance
      (fun x y g2 hg2 => truchet_triangles_cell_advance resolution x y g2 hg2)
      (frange fuel (-1 : ℚ) 1 resolution).1
      (frange fuel (-1 : ℚ) 1 resolution).1 g hg
    rw [hidx, hlen, mul_one]
  · simp only [truchet_quarter_cirlces]
    obtain ⟨_, hidx⟩ := gridFold_advance
      (fun x y g2 hg2 => truchet_quarter_cirlces_cell_advance pi tau
        resolution (resolution / 2) x y g2 hg2)
      (frange fuel (-1 : ℚ) 1 resolution).1
      (frange fuel (-1 : ℚ) 1 resolution).1 g hg
    rw [hidx, hlen, mul_one]
  · simp only [truchet_diagonals]
    obtain ⟨_, hidx⟩ := gridFold_advance
      (fun x y g2 hg2 => truchet_diagonals_cell_advance resolution x y g2 hg2)
      (frange fuel (-1 : ℚ) 1 resolution).1
      (frange fuel (-1 : ℚ) 1 resolution).1 g hg
    rw [hidx, hlen, mul_one]
  · simp only [truchet_variation]
    obtain ⟨_, hidx⟩ := gridFold_advance
      (fun x y g2 hg2 => truchet_variation_cell_advance pi tau resolution
        (resolution / 2) x y g2 hg2)
      (frange fuel (-1 : ℚ) 1 resolution).1
      (frange fuel (-1 : ℚ) 1 resolution).1 g hg
    rw [hidx, hlen, mul_one]
  · simp only [truchet_diagonal_strips]
    obtain ⟨_, hidx⟩ := gridFold_advance
      (fun x y g2 hg2 => truchet_diagonal_strips_cell_advance resolution
        line_width fuel x y g2 hg2)
      (frange fuel (-1 : ℚ) 1 resolution).1
      (frange fuel (-1 : ℚ) 1 resolution).1 g hg
    rw [hidx, hlen, mul_one]
  · simp only [truchet_12_variation]
    obtain ⟨_, hidx⟩ := gridFold_advance
      (fun x y g2 hg2 => truchet_12_variation_cell_advance pi tau resolution
        (resolution / 2) x y g2 hg2)
      (frange fuel (-1 : ℚ) 1 resolution).1
      (frange fuel (-1 : ℚ) 1 resolution).1 g hg
    rw [hidx, hlen]
    ring

/-- Witness for the amended C4 statement at resolution 1 (a 2×2 grid,
fuel 2, the all-zeros RNG stream). -/
theorem truchet_rng_draw_counts_witness :
    (truchet_triangles 2 (1 : ℚ) ⟨fun _ => 0, 0⟩).2.1.idx =
      (⟨fun _ => 0, 0⟩ : RNG ℚ).idx + ⌈(2 : ℚ) / 1⌉₊ * ⌈(2 : ℚ) / 1⌉₊ ∧
    (truchet_quarter_cirlces (0 : ℚ) 0 2 1 (1 / 40) ⟨fun _ => 0, 0⟩).2.1.idx =
      (⟨fun _ => 0, 0⟩ : RNG ℚ).idx + ⌈(2 : ℚ) / 1⌉₊ * ⌈(2 : ℚ) / 1⌉₊ ∧
    (truchet_diagonals 2 (1 : ℚ) (1 / 40) ⟨fun _ => 0, 0⟩).2.1.idx =
      (⟨fun _ => 0, 0⟩ : RNG ℚ).idx + ⌈(2 : ℚ) / 1⌉₊ * ⌈(2 : ℚ) / 1⌉₊ ∧
    (truchet_variation (0 : ℚ) 0 2 1 (1 / 40) ⟨fun _ => 0, 0⟩).2.1.idx =
      (⟨fun _ => 0, 0⟩ : RNG ℚ).idx + ⌈(2 : ℚ) / 1⌉₊ * ⌈(2 : ℚ) / 1⌉₊ ∧
    (truchet_diagonal_strips 2 (1 : ℚ) (1 / 40) ⟨fun _ => 0, 0⟩).2.1.idx =
      (⟨fun _ => 0, 0⟩ : RNG ℚ).idx + ⌈(2 : ℚ) / 1⌉₊ * ⌈(2 : ℚ) / 1⌉₊ ∧
    (truchet_12_variation (0 : ℚ) 0 2 1 (1 / 40) ⟨fun _ => 0, 0⟩).2.1.idx =
      (⟨fun _ => 0, 0⟩ : RNG ℚ).idx +
        3 * (⌈(2 : ℚ) / 1⌉₊ * ⌈(2 : ℚ) / 1⌉₊) :=
  truchet_rng_draw_counts 0 0 1 (1 / 40) 2 ⟨fun _ => 0, 0⟩
    (fun _ => ⟨le_refl 0, by norm_num⟩) (by norm_num) (by norm_num)
    (by norm_num)

/-- C4 counterexample: at resolution 1 the grid has `⌈2/1⌉₊² = 4` cells and
`truchet_12_variation` consumes 12 RNG draws — three per cell — whereas the
claim says `2` per cell, i.e. `8` in total. -/
theorem truchet_12_draw_count_counterexample :
    (truchet_12_variation (0 : ℚ) 0 2 1 (1 / 40) ⟨fun _ => 0, 0⟩).2.1.idx
      = 12 ∧
    (truchet_12_variation (0 : ℚ) 0 2 1 (1 / 40) ⟨fun _ => 0, 0⟩).2.1.idx
      ≠ 2 * (⌈(2 : ℚ) / 1⌉₊ * ⌈(2 : ℚ) / 1⌉₊) := by
  have hceil : ⌈(2 : ℚ) / 1⌉₊ = 2 := by norm_num
  have hg : InRange (⟨fun _ => 0, 0⟩ : RNG ℚ).stream :=
    fun _ => ⟨le_refl 0, by norm_num⟩
  obtain ⟨hlen, _⟩ := frange_grid_length (by norm_num : (0 : ℚ) < 1)
    (le_of_eq hceil)
  have h12 :
      (truchet_12_variation (0 : ℚ) 0 2 1 (1 / 40) ⟨fun _ => 0, 0⟩).2.1.idx
        = 12 := by
    simp only [truchet_12_variation]
    obtain ⟨_, hidx⟩ := gridFold_advance
      (fun x y g2 hg2 => truchet_12_variation_cell_advance 0 0 1 (1 / 2)
        x y g2 hg2)
      (frange 2 (-1 : ℚ) 1 1).1 (frange 2 (-1 : ℚ) 1 1).1
      ⟨fun _ => 0, 0⟩ hg
    rw [hidx, hlen, hceil]
  refine ⟨h12, ?_⟩
  rw [h12, hceil]
  norm_num

end ClaimC4

section ClaimC5

theorem random_spots_loop_zero_eq (it : ℕ) (mn mx : ℚ)
    (bubbles : List (ℚ × ℚ × ℚ)) (g : RNG ℚ) :
    random_spots_loop it mn mx 0 bubbles g =
      (bubbles, g, decide (it ≤ bubbles.length)) := rfl

theorem random_spots_loop_succ_eq (it : ℕ) (mn mx : ℚ) (fuel : ℕ)
    (bubbles : List (ℚ × ℚ × ℚ)) (g : RNG ℚ) :
    random_spots_loop it mn mx (fuel + 1) bubbles g =
      if bubbles.length < it then
        if bubbles.any (fun b => bubble_intersects b
            (-1 + (1 - (-1)) * g.stream g.idx)
            (-1 + (1 - (-1)) * g.stream (g.idx + 1))
            (mn + (mx - mn) * g.stream (g.idx + 1 + 1))) then
          random_spots_loop it mn mx fuel bubbles
            ⟨g.stream, g.idx + 1 + 1 + 1⟩
        else
          random_spots_loop it mn mx fuel
            (bubbles ++ [(-1 + (1 - (-1)) * g.stream g.idx,
              -1 + (1 - (-1)) * g.stream (g.idx + 1),
              mn + (mx - mn) * g.stream (g.idx + 1 + 1))])
            ⟨g.stream, g.idx + 1 + 1 + 1⟩
      else (bubbles, g, true) := rfl

theorem random_spots_loop_stuck {x y : ℚ} (hx1 : -1 ≤ x) (hx2 : x ≤ 1)
    (hy1 : -1 ≤ y) (hy2 : y ≤ 1) :
    ∀ (fuel : ℕ) (g : RNG ℚ), InRange g.stream →
      (random_spots_loop 2 3 3 fuel [(x, y, 3)] g).2.2 = false := by
  intro fuel
  induction fuel with
  | zero =>
    intro g _
    rw [random_spots_loop_zero_eq]
    simp
  | succ fuel ih =>
    intro g hg
    rw [random_spots_loop_succ_eq,
      if_pos (by norm_num : ([(x, y, 3)] : List (ℚ × ℚ × ℚ)).length < 2)]
    obtain ⟨h00, h01⟩ := hg g.idx
    obtain ⟨h10, h11⟩ := hg (g.idx + 1)
    have hany : ([(x, y, 3)] : List (ℚ × ℚ × ℚ)).any (fun b =>
        bubble_intersects b (-1 + (1 - (-1)) * g.stream g.idx)
          (-1 + (1 - (-1)) * g.stream (g.idx + 1))
          (3 + (3 - 3) * g.stream (g.idx + 1 + 1))) = true := by
      simp only [List.any_cons, List.any_nil, Bool.or_false,
        bubble_intersects, decide_eq_true_eq]
      constructor
      · nlinarith [hg (g.idx + 1 + 1)]
      · have hx3 : (x - (-1 + (1 - (-1)) * g.stream g.idx)) ^ 2 ≤ 2 ^ 2 :=
          sq_le_sq' (by linarith) (by linarith)
        have hy3 : (y - (-1 + (1 - (-1)) * g.stream (g.idx + 1))) ^ 2 ≤ 2 ^ 2 :=
          sq_le_sq' (by linarith) (by linarith)
        nlinarith [hx3, hy3]
    rw [if_pos hany]
    exact ih ⟨g.stream, g.idx + 1 + 1 + 1⟩ hg

/-- C5: the claim says `random_spots`'s rejection-sampling loop is bounded
by a maximum attempt budget and reports `PackingFailed` when it is
exhausted.  The code has no budget at all: with `iterations = 2` and
`min_size = max_size = 3` the second disc can never be placed (every sampled
disc of radius 3 centred in `[-1, 1)²` overlaps the first), so at every
attempt budget `fuel` the `while` loop is still running — the program loops
forever instead of failing. -/
theorem random_spots_unbounded_rejection (fuel : ℕ) (g : RNG ℚ)
    (hg : InRange g.stream) :
    (random_spots_loop 2 3 3 fuel [] g).2.2 = false := by
  cases fuel with
  | zero =>
    rw [random_spots_loop_zero_eq]
    simp
  | succ fuel =>
    rw [random_spots_loop_succ_eq,
      if_pos (by norm_num : ([] : List (ℚ × ℚ × ℚ)).length < 2),
      if_neg (by simp : ¬ (([] : List (ℚ × ℚ × ℚ)).any (fun b =>
        bubble_intersects b (-1 + (1 - (-1)) * g.stream g.idx)
          (-1 + (1 - (-1)) * g.stream (g.idx + 1))
          (3 + (3 - 3) * g.stream (g.idx + 1 + 1))) = true)),
      List.nil_append]
    have hr : (3 : ℚ) + (3 - 3) * g.stream (g.idx + 1 + 1) = 3 := by ring
    rw [hr]
    apply random_spots_loop_stuck
    · have := (hg g.idx).1; linarith
    · have := (hg g.idx).2; linarith
    · have := (hg (g.idx + 1)).1; linarith
    · have := (hg (g.idx + 1)).2; linarith
    · exact hg

/-- Witness for C5's divergence theorem at the all-zeros RNG stream and
attempt budget 5. -/
theorem random_spots_unbounded_rejection_witness :
    (random_spots_loop 2 3 3 5 [] (⟨fun _ => 0, 0⟩ : RNG ℚ)).2.2 = false :=
  random_spots_unbounded_rejection 5 ⟨fun _ => 0, 0⟩
    (fun _ => ⟨le_refl 0, by norm_num⟩)

end ClaimC5

section ClaimC6

theorem random_spots_loop_count (it : ℕ) (mn mx : ℚ) :
    ∀ (fuel : ℕ) (bubbles : List (ℚ × ℚ × ℚ)) (g : RNG ℚ),
      bubbles.length ≤ it →
      (random_spots_loop it mn mx fuel bubbles g).2.2 = true →
      (random_spots_loop it mn mx fuel bubbles g).1.length = it := by
  intro fuel
  induction fuel with
  | zero =>
    intro bubbles g hle hdone
    rw [random_spots_loop_zero_eq] at hdone ⊢
    simp only [decide_eq_true_eq] at hdone
    show bubbles.length = it
    omega
  | succ fuel ih =>
    intro bubbles g hle hdone
    rw [random_spots_loop_succ_eq] at hdone ⊢
    split_ifs at hdone ⊢ with h1 h2
    · exact ih bubbles _ hle hdone
    · exact ih _ _ (by simp; omega) hdone
    · show bubbles.length = it
      omega

theorem random_spots_loop_separated (it : ℕ) (mn mx : ℚ) :
    ∀ (fuel : ℕ) (bubbles : List (ℚ × ℚ × ℚ)) (g : RNG ℚ),
      (bubbles.Pairwise fun b1 b2 =>
        bubble_intersects b1 b2.1 b2.2.1 b2.2.2 = false) →
      ((random_spots_loop it mn mx fuel bubbles g).1.Pairwise fun b1 b2 =>
        bubble_intersects b1 b2.1 b2.2.1 b2.2.2 = false) := by
  intro fuel
  induction fuel with
  | zero =>
    intro bubbles g hp
    rw [random_spots_loop_zero_eq]
    exact hp
  | succ fuel ih =>
    intro bubbles g hp
    rw [random_spots_loop_succ_eq]
    split_ifs with h1 h2
    · exact ih bubbles _ hp
    · apply ih
      rw [List.pairwise_append]
      refine ⟨hp, List.pairwise_singleton _ _, ?_⟩
      intro b hb b2 hb2
      rw [List.mem_singleton] at hb2
      subst hb2
      simp only [Bool.not_eq_true, List.any_eq_false] at h2
      simpa using h2 b hb
    · exact hp

/-- C6: whenever the rejection-sampling loop of `random_spots` completes
(starting from the empty disc list), the accepted list has exactly
`iterations` discs, and every pair of accepted discs is separated by a
Euclidean centre distance of at least the sum of their radii — the
acceptance check (`for … else` over all previously accepted discs)
maintains this as an invariant. -/
theorem random_spots_success_properties (iterations fuel : ℕ)
    (min_size max_size : ℚ) (g : RNG ℚ)
    (hdone :
      (random_spots_loop iterations min_size max_size fuel [] g).2.2 = true) :
    (random_spots_loop iterations min_size max_size fuel [] g).1.length
      = iterations ∧
    ((random_spots_loop iterations min_size max_size fuel [] g).1.Pairwise
      fun b1 b2 => (b1.2.2 : ℝ) + b2.2.2 ≤
        Real.sqrt (((b2.1 : ℝ) - b1.1) ^ 2 + ((b2.2.1 : ℝ) - b1.2.1) ^ 2)) := by
  constructor
  · exact random_spots_loop_count iterations min_size max_size fuel [] g
      (by simp) hdone
  · have hp := random_spots_loop_separated iterations min_size max_size fuel
      [] g List.Pairwise.nil
    exact hp.imp fun h => not_intersects_dist_ge h

/-- Witness for C6: two zero-radius discs requested and packed with the
all-zeros RNG stream; the loop completes in two attempts. -/
theorem random_spots_success_properties_witness :
    (random_spots_loop 2 0 0 2 [] (⟨fun _ => 0, 0⟩ : RNG ℚ)).1.length = 2 ∧
    ((random_spots_loop 2 0 0 2 [] (⟨fun _ => 0, 0⟩ : RNG ℚ)).1.Pairwise
      fun b1 b2 => (b1.2.2 : ℝ) + b2.2.2 ≤
        Real.sqrt (((b2.1 : ℝ) - b1.1) ^ 2 + ((b2.2.1 : ℝ) - b1.2.1) ^ 2)) :=
  random_spots_success_properties 2 2 0 0 ⟨fun _ => 0, 0⟩
    (by norm_num [random_spots_loop, bubble_intersects, random_uniform,
      random_random])

end ClaimC6

section ClaimC8

/-- C8 (amended): for `loops = 0` the generator raises `ZeroDivisionError`
at the amplitude division `a = (1 - line_width / 2) / max_angle` before any
drawing takes place — so no `line_to` command is ever produced, but no
empty path is rendered either: the call fails, regardless of all other
parameters (for `loops < 0` the path is non-empty, see the
counterexample). -/
theorem archimedean_spiral_zero_loops {α : Type} [LinearOrderedField α]
    (mcos msin : α → α) (tau : α) (fuel : ℕ) (anti radial : Bool)
    (line_width : α) (iterations : ℕ) :
    archimedean_spiral mcos msin tau fuel anti radial 0 line_width
      iterations = none := by
  by_cases hit : ((iterations : α)) = 0
  · simp [archimedean_spiral, hit]
  · simp [archimedean_spiral, hit, zero_mul]

/-- C8 counterexample: at `loops = -1` (with `iterations = 2`, fuel 1) the
call succeeds and the path is not empty — the descending branch of `frange`
yields the angle `0` and one `line_to` is emitted, so negative loop counts
do not give an empty path. -/
theorem archimedean_spiral_negative_loops_counterexample :
    ((archimedean_spiral Real.cos Real.sin (2 * Real.pi) 1 false true (-1)
      (1 / 20) 2).map fun s => s.1.countP fun c => c.isLineTo) = some 1 := by
  have hpi := Real.pi_pos
  have hm : (-1 : ℝ) * (2 * Real.pi) < 0 := by nlinarith
  have hit : ((2 : ℕ) : ℝ) ≠ 0 := by norm_num
  have hfr1 : (frange 1 (0 : ℝ) ((-1) * (2 * Real.pi))
      ((-1) * (2 * Real.pi) / ((2 : ℕ) : ℝ))).1 = [0] := by
    rw [frange, if_neg (by nlinarith : ¬ (0 : ℝ) < (-1) * (2 * Real.pi)),
      if_pos hm, show (1 : ℕ) = 0 + 1 from rfl, frangeDown_succ,
      if_pos hm, frangeDown_zero]
  simp only [archimedean_spiral, if_neg hit, if_neg (ne_of_lt hm), hfr1]
  simp [Cmd.isLineTo]

end ClaimC8

section ClaimC7

/-- C7 (amended): for every `loops`, every `0 ≤ line_width < 2`, every
iteration count and fuel, and both winding directions, whenever
`archimedean_spiral` (instantiated with the genuine `Real.cos`, `Real.sin`
and `tau = 2π`) returns a stream (it returns `none` exactly on the
`ZeroDivisionError` paths `iterations = 0` and `loops = 0`), every
`line_to` point of that stream has Euclidean norm `sqrt(x² + y²) ≤ 1`: the
amplitude `(1 - line_width/2)/(loops·2π)` scales every sample `r = a·θ`
with `|θ| ≤ |loops·2π|` so that `|r| ≤ 1 - line_width/2 ≤ 1`. -/
theorem archimedean_spiral_radius_le_one (fuel iterations : ℕ)
    (anti radial : Bool) (loops line_width x y : ℝ)
    (s : List (Cmd ℝ) × Bool)
    (hlw0 : 0 ≤ line_width) (hlw2 : line_width < 2)
    (hsome : archimedean_spiral Real.cos Real.sin (2 * Real.pi) fuel anti
      radial loops line_width iterations = some s)
    (hmem : Cmd.line_to x y ∈ s.1) :
    Real.sqrt (x ^ 2 + y ^ 2) ≤ 1 := by
  obtain ⟨sl, sf⟩ := s
  replace hmem : Cmd.line_to x y ∈ sl := hmem
  simp only [archimedean_spiral] at hsome
  by_cases hit : ((iterations : ℝ)) = 0
  · rw [if_pos hit] at hsome
    exact absurd hsome (by simp)
  rw [if_neg hit] at hsome
  by_cases hma : loops * (2 * Real.pi) = 0
  · rw [if_pos hma] at hsome
    exact absurd hsome (by simp)
  rw [if_neg hma, Option.some.injEq, Prod.mk.injEq] at hsome
  obtain ⟨hsl, hsf⟩ := hsome
  subst hsl
  rw [List.mem_append, List.mem_cons] at hmem
  rcases hmem with (h | hmem) | h
  · exact absurd h (by simp)
  · rw [List.mem_map] at hmem
    obtain ⟨θ, hθ, hxy⟩ := hmem
    rw [Cmd.line_to.injEq] at hxy
    obtain ⟨hx, hy⟩ := hxy
    subst hx
    subst hy
    rw [sqrt_point_radius]
    set m := loops * (2 * Real.pi) with hmdef
    set a0 := (1 - line_width / 2) / m with ha0def
    have hc : 0 < 1 - line_width / 2 := by linarith
    have hc1 : 1 - line_width / 2 ≤ 1 := by linarith
    have habs : |if anti = true then -a0 else a0| = |a0| := by
      cases anti <;> simp
    rcases lt_trichotomy m 0 with hm | hm | hm
    · rw [frange, if_neg (by linarith : ¬ (0 : ℝ) < m), if_pos hm] at hθ
      have hstep : m / (iterations : ℝ) ≤ 0 :=
        div_nonpos_iff.mpr (Or.inr ⟨hm.le, Nat.cast_nonneg _⟩)
      obtain ⟨hθ1, hθ2⟩ := frangeDown_mem hstep fuel 0 m θ hθ
      have hθabs : |θ| ≤ |m| := by
        rw [abs_of_nonpos hθ2, abs_of_neg hm]
        linarith
      have hmne : |m| ≠ 0 := abs_ne_zero.mpr hm.ne
      calc |(if anti = true then -a0 else a0) * θ|
          = |a0| * |θ| := by rw [abs_mul, habs]
        _ ≤ |a0| * |m| :=
            mul_le_mul_of_nonneg_left hθabs (abs_nonneg _)
        _ = 1 - line_width / 2 := by
            rw [ha0def, abs_div, abs_of_pos hc, div_mul_cancel₀ _ hmne]
        _ ≤ 1 := hc1
    · exact absurd hm hma
    · rw [frange, if_pos hm] at hθ
      have hstep : 0 ≤ m / (iterations : ℝ) :=
        div_nonneg hm.le (Nat.cast_nonneg _)
      obtain ⟨hθ1, hθ2⟩ := frangeUp_mem hstep fuel 0 m θ hθ
      have hθabs : |θ| ≤ |m| := by
        rw [abs_of_nonneg hθ1, abs_of_pos hm]
        linarith
      have hmne : |m| ≠ 0 := abs_ne_zero.mpr hm.ne'
      calc |(if anti = true then -a0 else a0) * θ|
          = |a0| * |θ| := by rw [abs_mul, habs]
        _ ≤ |a0| * |m| :=
            mul_le_mul_of_nonneg_left hθabs (abs_nonneg _)
        _ = 1 - line_width / 2 := by
            rw [ha0def, abs_div, abs_of_pos hc, div_mul_cancel₀ _ hmne]
        _ ≤ 1 := hc1
  · cases radial <;> simp at h

/-- Witness for the amended C7 statement: the one-loop, zero-line-width
spiral returns a stream whose first sample sits at the origin, and its norm
is at most 1. -/
theorem archimedean_spiral_radius_le_one_witness :
    (0 : ℝ) ≤ 0 ∧ (0 : ℝ) < 2 ∧
    Real.sqrt ((0 : ℝ) ^ 2 + (0 : ℝ) ^ 2) ≤ 1 := by
  refine ⟨le_rfl, by norm_num, ?_⟩
  have hpi := Real.pi_pos
  have hit : ((2 : ℕ) : ℝ) ≠ 0 := by norm_num
  have hma : (1 : ℝ) * (2 * Real.pi) ≠ 0 := by nlinarith
  have hm : (0 : ℝ) < 1 * (2 * Real.pi) := by nlinarith
  have hfr1 : (frange 1 (0 : ℝ) (1 * (2 * Real.pi))
      (1 * (2 * Real.pi) / ((2 : ℕ) : ℝ))).1 = [0] := by
    rw [frange, if_pos hm, show (1 : ℕ) = 0 + 1 from rfl, frangeUp_succ,
      if_pos hm, frangeUp_zero]
  rcases hs : archimedean_spiral Real.cos Real.sin (2 * Real.pi) 1 false
      true 1 0 2 with _ | s
  · exfalso
    simp only [archimedean_spiral, if_neg hit, if_neg hma] at hs
    exact Option.some_ne_none _ hs
  · apply archimedean_spiral_radius_le_one 1 2 false true 1 0 0 0 s le_rfl
      (by norm_num) hs
    simp only [archimedean_spiral, if_neg hit, if_neg hma, hfr1] at hs
    rw [Option.some.injEq] at hs
    rw [← hs]
    simp

/-- C7 counterexample: the claim quantifies over every `line_width < 2`,
but for a negative line width the amplitude exceeds the clipping bound: at
`loops = 1`, `line_width = -2`, `iterations = 5`, the fourth sample
(`θ = 6π/5`) has radius `6/5 > 1`. -/
theorem archimedean_spiral_radius_counterexample :
    ¬ (∀ (x y : ℝ) (s : List (Cmd ℝ) × Bool),
        archimedean_spiral Real.cos Real.sin (2 * Real.pi) 4 false true 1
          (-2) 5 = some s →
        Cmd.line_to x y ∈ s.1 → Real.sqrt (x ^ 2 + y ^ 2) ≤ 1) := by
  intro hcl
  have hpi := Real.pi_pos
  have hpne : Real.pi ≠ 0 := Real.pi_ne_zero
  have hm : (0 : ℝ) < 1 * (2 * Real.pi) := by nlinarith
  have hit : ((5 : ℕ) : ℝ) ≠ 0 := by norm_num
  have h1 : (0 : ℝ) + 1 * (2 * Real.pi) / ((5 : ℕ) : ℝ)
      < 1 * (2 * Real.pi) := by
    push_cast
    nlinarith
  have h2 : (0 : ℝ) + 1 * (2 * Real.pi) / ((5 : ℕ) : ℝ)
      + 1 * (2 * Real.pi) / ((5 : ℕ) : ℝ) < 1 * (2 * Real.pi) := by
    push_cast
    nlinarith
  have h3 : (0 : ℝ) + 1 * (2 * Real.pi) / ((5 : ℕ) : ℝ)
      + 1 * (2 * Real.pi) / ((5 : ℕ) : ℝ)
      + 1 * (2 * Real.pi) / ((5 : ℕ) : ℝ) < 1 * (2 * Real.pi) := by
    push_cast
    nlinarith
  have hfr : (frange 4 (0 : ℝ) (1 * (2 * Real.pi))
      (1 * (2 * Real.pi) / ((5 : ℕ) : ℝ))).1 =
      [0, 0 + 1 * (2 * Real.pi) / ((5 : ℕ) : ℝ),
       0 + 1 * (2 * Real.pi) / ((5 : ℕ) : ℝ)
         + 1 * (2 * Real.pi) / ((5 : ℕ) : ℝ),
       0 + 1 * (2 * Real.pi) / ((5 : ℕ) : ℝ)
         + 1 * (2 * Real.pi) / ((5 : ℕ) : ℝ)
         + 1 * (2 * Real.pi) / ((5 : ℕ) : ℝ)] := by
    rw [frange, if_pos hm,
      show (4 : ℕ) = 3 + 1 from rfl, frangeUp_succ, if_pos hm,
      show (3 : ℕ) = 2 + 1 from rfl, frangeUp_succ, if_pos h1,
      show (2 : ℕ) = 1 + 1 from rfl, frangeUp_succ, if_pos h2,
      show (1 : ℕ) = 0 + 1 from rfl, frangeUp_succ, if_pos h3,
      frangeUp_zero]
  rcases hs : archimedean_spiral Real.cos Real.sin (2 * Real.pi) 4 false
      true 1 (-2) 5 with _ | s
  · simp only [archimedean_spiral, if_neg hit, if_neg (ne_of_gt hm)] at hs
    exact Option.some_ne_none _ hs
  have hmem : Cmd.line_to
      (((if (false : Bool) = true then
          -((1 - (-2) / 2) / (1 * (2 * Real.pi)))
        else (1 - (-2) / 2) / (1 * (2 * Real.pi))) *
        (0 + 1 * (2 * Real.pi) / ((5 : ℕ) : ℝ)
          + 1 * (2 * Real.pi) / ((5 : ℕ) : ℝ)
          + 1 * (2 * Real.pi) / ((5 : ℕ) : ℝ))) *
        Real.cos (0 + 1 * (2 * Real.pi) / ((5 : ℕ) : ℝ)
          + 1 * (2 * Real.pi) / ((5 : ℕ) : ℝ)
          + 1 * (2 * Real.pi) / ((5 : ℕ) : ℝ)))
      (((if (false : Bool) = true then
          -((1 - (-2) / 2) / (1 * (2 * Real.pi)))
        else (1 - (-2) / 2) / (1 * (2 * Real.pi))) *
        (0 + 1 * (2 * Real.pi) / ((5 : ℕ) : ℝ)
          + 1 * (2 * Real.pi) / ((5 : ℕ) : ℝ)
          + 1 * (2 * Real.pi) / ((5 : ℕ) : ℝ))) *
        Real.sin (0 + 1 * (2 * Real.pi) / ((5 : ℕ) : ℝ)
          + 1 * (2 * Real.pi) / ((5 : ℕ) : ℝ)
          + 1 * (2 * Real.pi) / ((5 : ℕ) : ℝ))) ∈ s.1 := by
    simp only [archimedean_spiral, if_neg hit, if_neg (ne_of_gt hm), hfr]
      at hs
    rw [Option.some.injEq] at hs
    rw [← hs]
    simp
  have hle := hcl _ _ s hs hmem
  rw [sqrt_point_radius] at hle
  have hval : ((if (false : Bool) = true then
      -((1 - (-2) / 2) / (1 * (2 * Real.pi)))
    else (1 - (-2) / 2) / (1 * (2 * Real.pi))) *
      (0 + 1 * (2 * Real.pi) / ((5 : ℕ) : ℝ)
        + 1 * (2 * Real.pi) / ((5 : ℕ) : ℝ)
        + 1 * (2 * Real.pi) / ((5 : ℕ) : ℝ))) = 6 / 5 := by
    rw [if_neg (by simp)]
    push_cast
    field_simp
    ring
  rw [hval] at hle
  rw [abs_of_pos (by norm_num : (0 : ℝ) < 6 / 5)] at hle
  linarith

end ClaimC7

end Patterns
